import Mathlib

/-!
Verification of the robin-smesh coordination core against its specification.

The development shallowly embeds the Rust sources of the repository:

* `robin-core/src/signals.rs` — `Signal`, `SignalBuilder`, decay, reinforcement;
* `robin-core/src/field.rs` — the shared `Field` (emit / tick / reinforce);
* `robin-core/src/search_engines.rs` — the `urlencoded` query encoder;
* `robin-agents/src/filter.rs` — the filter agent's LLM index parsing;
* `robin-agents/src/analyst.rs` — the analyst agent's process loop;
* `robin-tor/src/scraper.rs` — the scrape-text truncation.

Modelling conventions:

* Rust `f64` values are embedded as exact rationals `ℚ` wherever the code
  only adds, multiplies, divides and compares them; the transcendental
  `f64::exp` of the exponential decay is embedded as `Real.exp`, so decayed
  intensities live in `ℝ`.
* `chrono::DateTime<Utc>` timestamps are embedded as integer milliseconds
  (`ℤ`): the code only ever advances time by `Duration::milliseconds(..)`
  and reads differences through `num_milliseconds()`.
* The 16-hex-digit SHA-256 `origin_hash` of `(payload, origin_agent_id)` is
  embedded as the pair itself: the digest is a deterministic function of the
  pair and the code relies on it being collision free (spec §3.1, §4.1),
  so the pair is the collision-free idealisation of the digest.
* `HashMap<String, Signal>` is embedded as an association list keyed by the
  embedded hash; the map of the running program has unique keys, and every
  operation below touches at most the first entry with a given key.
* External I/O (the LLM backend) is embedded as an explicit parameter
  carrying the outcome of the call.
-/

namespace Robin

/-- Decay functions for signal intensity over time (signals.rs). -/
inductive DecayFunction where
  | exponential
  | linear
  | step
deriving DecidableEq

/-- Categories of intelligence insights (signals.rs). -/
inductive InsightCategory where
  | threatActor
  | malware
  | vulnerability
  | dataLeak
  | infrastructure
  | financial
  | operational
  | attribution
deriving DecidableEq

/-- Types of agents in the OSINT swarm (signals.rs). -/
inductive AgentType where
  | refiner
  | crawler
  | filter
  | scraper
  | extractor
  | enricher
  | blockchainAnalyst
  | pasteMonitor
  | analyst
deriving DecidableEq

/-- Categories of intelligence artifacts (artifacts.rs). -/
inductive ArtifactType where
  | ipv4
  | ipv6
  | domain
  | onionAddress
  | email
  | md5
  | sha1
  | sha256
  | bitcoin
  | ethereum
  | monero
  | cve
  | mitreAttack
  | threatActor
  | malware
  | url
  | username
  | phone
  | creditCard
  | custom (name : String)
deriving DecidableEq

/-- An extracted artifact with context (artifacts.rs). -/
structure Artifact where
  artifact_type : ArtifactType
  value : String
  context : Option String
  confidence : ℚ
  source : Option String
deriving DecidableEq

/-- Temporal patterns detected in blockchain activity (signals.rs). -/
structure TemporalPattern where
  pattern_type : String
  description : String
  confidence : ℚ
  evidence : List String
deriving DecidableEq

/-- Blockchain wallet temporal analysis results (signals.rs). -/
structure WalletAnalysis where
  first_seen : Option ℤ
  last_seen : Option ℤ
  tx_count : ℕ
  total_received : ℕ
  total_sent : ℕ
  balance : ℕ
  patterns : List TemporalPattern
  risk_indicators : List String
deriving DecidableEq

/-- A finding from external OSINT enrichment (signals.rs). -/
structure EnrichmentFinding where
  finding_type : String
  title : String
  url : Option String
  snippet : String
  relevance : ℚ
deriving DecidableEq

/-- OSINT-specific signal payload types (signals.rs). -/
inductive OsintPayload where
  | userQuery (query : String) (priority : ℚ)
  | refinedQuery (original : String) (refined : String) (confidence : ℚ)
  | rawResult (url : String) (title : String) (engine : String)
  | filteredResult (url : String) (title : String) (relevance : ℚ) (reason : String)
  | scrapedContent (url : String) (title : String) (text : String) (char_count : ℕ)
  | extractedArtifacts (source_url : String) (artifacts : List Artifact)
  | insight (category : InsightCategory) (content : String) (sources : List String)
      (confidence : ℚ)
  | summary (markdown : String) (artifact_count : ℕ) (source_count : ℕ)
  | enrichedArtifacts (artifact : Artifact) (source : String)
      (findings : List EnrichmentFinding)
  | blockchainAnalysis (address : String) (chain : String) (analysis : WalletAnalysis)
  | pasteContent (url : String) (site : String) (title : Option String)
      (content : String) (created_at : Option String) (author : Option String)
  | heartbeat (agent_id : String) (agent_type : AgentType) (capacity : ℚ)
  | taskClaim (task_id : String) (claimer_id : String) (affinity : ℚ)
deriving DecidableEq

/-- Content-address key of a signal.  The code stores the first 16 hex digits
of `SHA-256(serde_json(payload) || origin_agent_id)`; the digest is modelled
as the hashed pair itself (the collision-free idealisation the code relies
on, spec §3.1). -/
abbrev HashKey : Type := OsintPayload × String

/-- Embeds `Signal::compute_origin_hash` (signals.rs, lines 317-323). -/
def compute_origin_hash (payload : OsintPayload) (origin_agent_id : String) : HashKey :=
  (payload, origin_agent_id)

/-- A signal in the OSINT field (signals.rs).  Timestamps are integer
milliseconds; `current_intensity` is the cached decayed value in `ℝ`. -/
structure Signal where
  id : ℕ
  origin_hash : HashKey
  payload : OsintPayload
  intensity : ℚ
  current_intensity : ℝ
  ttl : ℚ
  decay_rate : ℚ
  decay_function : DecayFunction
  confidence : ℚ
  origin_agent_id : String
  created_at : ℤ
  reinforcement_count : ℕ
  reinforced_by : List String

/-- Age of a signal in seconds at millisecond timestamp `t`:
`(current_time - self.created_at).num_milliseconds() as f64 / 1000.0`. -/
def Signal.age (s : Signal) (t : ℤ) : ℚ :=
  ((t - s.created_at : ℤ) : ℚ) / 1000

/-- Embeds `Signal::compute_intensity` (signals.rs, lines 268-290). -/
noncomputable def Signal.compute_intensity (s : Signal) (current_time : ℤ) : ℝ :=
  let age := s.age current_time
  if age < 0 then (s.intensity : ℝ)
  else if age ≥ s.ttl then 0
  else
    match s.decay_function with
    | .exponential => (s.intensity : ℝ) * Real.exp (-(s.decay_rate : ℝ) * (age : ℝ))
    | .linear => max ((s.intensity : ℝ) * (1 - (age : ℝ) / (s.ttl : ℝ))) 0
    | .step => if age < s.ttl then (s.intensity : ℝ) else 0

/-- Embeds `Signal::effective_intensity` (signals.rs, lines 293-297). -/
noncomputable def Signal.effective_intensity (s : Signal) (current_time : ℤ) : ℝ :=
  let base := s.compute_intensity current_time
  let reinforcement_boost : ℝ := 1 + min ((s.reinforcement_count : ℝ) * 0.1) 0.5
  min (base * (s.confidence : ℝ) * reinforcement_boost) 1

/-- Embeds `Signal::is_expired` (signals.rs, lines 300-303). -/
def Signal.is_expired (s : Signal) (current_time : ℤ) : Prop :=
  s.age current_time ≥ s.ttl ∨ s.compute_intensity current_time < 0.01

/-- Embeds `Signal::reinforce` (signals.rs, lines 306-315). -/
def Signal.reinforce (s : Signal) (reinforcer_id : String) : Signal :=
  if reinforcer_id ∈ s.reinforced_by then s
  else
    let count := s.reinforcement_count + 1
    let boost : ℚ := 0.1 / (1 + (count : ℚ) * 0.5)
    { s with
      reinforced_by := s.reinforced_by ++ [reinforcer_id]
      reinforcement_count := count
      confidence := min (s.confidence + boost) 1 }

/-- Default signal TTL in seconds (robin-core/src/lib.rs). -/
def DEFAULT_TTL : ℚ := 60

/-- Default decay rate, exponential (robin-core/src/lib.rs). -/
def DEFAULT_DECAY_RATE : ℚ := 0.1

/-- Builder for signals (signals.rs). -/
structure SignalBuilder where
  payload : OsintPayload
  intensity : ℚ
  ttl : ℚ
  decay_rate : ℚ
  decay_function : DecayFunction
  confidence : ℚ
  origin_agent_id : String

/-- Embeds `SignalBuilder::new`. -/
def SignalBuilder.new (payload : OsintPayload) : SignalBuilder :=
  { payload := payload
    intensity := 1
    ttl := DEFAULT_TTL
    decay_rate := DEFAULT_DECAY_RATE
    decay_function := .exponential
    confidence := 1
    origin_agent_id := "" }

/-- Embeds the `intensity` setter: `intensity.clamp(0.0, 1.0)`. -/
def SignalBuilder.setIntensity (b : SignalBuilder) (intensity : ℚ) : SignalBuilder :=
  { b with intensity := min (max intensity 0) 1 }

/-- Embeds the `ttl` setter: `ttl.max(0.0)`. -/
def SignalBuilder.setTtl (b : SignalBuilder) (ttl : ℚ) : SignalBuilder :=
  { b with ttl := max ttl 0 }

/-- Embeds the `decay_rate` setter: `rate.max(0.0)`. -/
def SignalBuilder.setDecayRate (b : SignalBuilder) (rate : ℚ) : SignalBuilder :=
  { b with decay_rate := max rate 0 }

/-- Embeds the `decay_function` setter. -/
def SignalBuilder.setDecayFunction (b : SignalBuilder) (f : DecayFunction) : SignalBuilder :=
  { b with decay_function := f }

/-- Embeds the `confidence` setter: `confidence.clamp(0.0, 1.0)`. -/
def SignalBuilder.setConfidence (b : SignalBuilder) (confidence : ℚ) : SignalBuilder :=
  { b with confidence := min (max confidence 0) 1 }

/-- Embeds the `origin` setter. -/
def SignalBuilder.setOrigin (b : SignalBuilder) (agent_id : String) : SignalBuilder :=
  { b with origin_agent_id := agent_id }

/-- Embeds `SignalBuilder::build` (signals.rs, lines 380-399).  `Utc::now()`
and `Uuid::new_v4()` are external inputs, passed as `now` and `uuid`. -/
noncomputable def SignalBuilder.build (b : SignalBuilder) (now : ℤ) (uuid : ℕ) : Signal :=
  { id := uuid
    origin_hash := compute_origin_hash b.payload b.origin_agent_id
    payload := b.payload
    intensity := b.intensity
    current_intensity := (b.intensity : ℝ)
    ttl := b.ttl
    decay_rate := b.decay_rate
    decay_function := b.decay_function
    confidence := b.confidence
    origin_agent_id := b.origin_agent_id
    created_at := now
    reinforcement_count := 0
    reinforced_by := [] }

/-! ## The shared field (field.rs) -/

/-- The shared field where signals exist and propagate (field.rs).  The
`HashMap<String, Signal>` is embedded as an association list keyed by the
content address. -/
structure Field where
  signals : List (HashKey × Signal)
  history : List Signal
  current_time : ℤ
  max_history : ℕ

/-- Embeds `Field::new` (field.rs, lines 33-40); `Utc::now()` is passed in. -/
def Field.new (now : ℤ) : Field :=
  { signals := [], history := [], current_time := now, max_history := 10000 }

/-- Whether the association list holds an entry with key `k`
(`HashMap::get_mut(..).is_some()` on the embedded map). -/
def containsKey (k : HashKey) : List (HashKey × Signal) → Bool
  | [] => false
  | e :: rest => if e.1 = k then true else containsKey k rest

/-- Value stored at key `k` (`HashMap::get` on the embedded map). -/
def lookupSig (k : HashKey) : List (HashKey × Signal) → Option Signal
  | [] => none
  | e :: rest => if e.1 = k then some e.2 else lookupSig k rest

/-- Number of entries stored at key `k`; the running map has at most one. -/
def countKey (k : HashKey) (l : List (HashKey × Signal)) : ℕ :=
  (l.filter fun e => e.1 = k).length

/-- Applies `Signal::reinforce` in place to the entry at key `k`
(`self.signals.get_mut(&hash)` touches the one entry with that key). -/
def reinforceKey (k : HashKey) (reinforcer_id : String) :
    List (HashKey × Signal) → List (HashKey × Signal)
  | [] => []
  | e :: rest =>
    if e.1 = k then (e.1, e.2.reinforce reinforcer_id) :: rest
    else e :: reinforceKey k reinforcer_id rest

/-- Embeds `Field::emit` (field.rs, lines 49-60): reinforce the stored signal
when the hash is present, insert otherwise; returns the hash. -/
def Field.emit (f : Field) (signal : Signal) : Field × HashKey :=
  let hash := signal.origin_hash
  if containsKey hash f.signals then
    ({ f with signals := reinforceKey hash signal.origin_agent_id f.signals }, hash)
  else
    ({ f with signals := f.signals ++ [(hash, signal)] }, hash)

/-- Embeds `Field::reinforce` (field.rs, lines 140-147). -/
def Field.reinforceHash (f : Field) (hash : HashKey) (agent_id : String) : Field × Bool :=
  if containsKey hash f.signals then
    ({ f with signals := reinforceKey hash agent_id f.signals }, true)
  else (f, false)

/-- Embeds `Field::active_count` (field.rs, lines 150-152). -/
def Field.active_count (f : Field) : ℕ := f.signals.length

/-! ## Time advance and tick (field.rs) -/

/-- Truncation of a rational toward zero, the semantics of Rust's
`f64 as i64` conversion on an in-range value. -/
def ratTruncZ (q : ℚ) : ℤ :=
  if 0 ≤ q then ⌊q⌋ else -⌊-q⌋

/-- Saturation to the `i64` range, the semantics of Rust's `as i64` on an
out-of-range value. -/
def i64Sat (x : ℤ) : ℤ :=
  max (-(2 ^ 63)) (min (2 ^ 63 - 1) x)

/-- Milliseconds added to `current_time` by `Field::tick`:
`chrono::Duration::milliseconds((dt_seconds * 1000.0) as i64)`. -/
def advanceMs (dt_seconds : ℚ) : ℤ :=
  i64Sat (ratTruncZ (dt_seconds * 1000))

/-- Splitting of a list by a (not necessarily decidable) predicate:
`SplitRel p l kept dropped` holds when `kept` are the elements of `l` not
satisfying `p` and `dropped` those satisfying it, both in order. -/
inductive SplitRel (p : α → Prop) : List α → List α → List α → Prop where
  | nil : SplitRel p [] [] []
  | keep {a : α} {l kept dropped : List α} :
      ¬ p a → SplitRel p l kept dropped → SplitRel p (a :: l) (a :: kept) dropped
  | drop {a : α} {l kept dropped : List α} :
      p a → SplitRel p l kept dropped → SplitRel p (a :: l) kept (a :: dropped)

/-- The entry map of `Field::tick`'s first loop: refresh the cached
`current_intensity` at the new time. -/
noncomputable def refreshEntry (t : ℤ) (e : HashKey × Signal) : HashKey × Signal :=
  (e.1, { e.2 with current_intensity := e.2.compute_intensity t })

/-- Embeds `Field::tick` (field.rs, lines 63-88) as a step relation (the
expiry test compares a real-valued decayed intensity, so the removal is
stated relationally): time advances by `advanceMs dt`, every signal's cached
intensity is refreshed, expired signals move from the live map to the
history while it has room. -/
def Field.Tick (f : Field) (dt_seconds : ℚ) (f' : Field) : Prop :=
  let t := f.current_time + advanceMs dt_seconds
  ∃ kept dropped,
    SplitRel (fun e => Signal.is_expired e.2 t) (f.signals.map (refreshEntry t)) kept dropped ∧
    f'.signals = kept ∧
    f'.current_time = t ∧
    f'.history = f.history ++ (dropped.map Prod.snd).take (f.max_history - f.history.length) ∧
    f'.max_history = f.max_history

/-! ## Filter agent response parsing (robin-agents/src/filter.rs) -/

/-- Rust `str::split(|c| !c.is_ascii_digit())` on the response: the pieces
between separator characters, empty pieces included (filter.rs, line 76). -/
def splitByNonDigit : List Char → List (List Char)
  | [] => [[]]
  | c :: cs =>
    if c.isDigit then
      match splitByNonDigit cs with
      | piece :: pieces => (c :: piece) :: pieces
      | [] => [[c]]
    else [] :: splitByNonDigit cs

/-- Numeric value of a digit string, most significant digit first. -/
def digitsToNat (piece : List Char) : ℕ :=
  piece.foldl (fun acc c => 10 * acc + (c.toNat - 48)) 0

/-- Largest `usize` value on the 64-bit targets the crate builds for. -/
def USIZE_MAX : ℕ := 2 ^ 64 - 1

/-- Rust `s.parse::<usize>().ok()` on a piece produced by the split: `Ok`
exactly for a nonempty all-digit piece whose value fits in `usize`. -/
def parseUsize (piece : List Char) : Option ℕ :=
  if piece ≠ [] ∧ piece.all Char.isDigit ∧ digitsToNat piece ≤ USIZE_MAX then
    some (digitsToNat piece)
  else none

/-- Embeds the index parsing of `FilterAgent::filter_results` (filter.rs,
lines 74-80): split on non-digits, parse, keep indices in `1..=n` where `n`
is the number of presented results, take the first 20. -/
def parse_indices (response : List Char) (n : ℕ) : List ℕ :=
  ((((splitByNonDigit response).filterMap parseUsize).filter
    fun idx => decide (0 < idx ∧ idx ≤ n)).take 20)

/-- Maximal runs of digits in the response, as claim C6 describes the
candidates: the nonempty pieces of the split. -/
def digitRuns (response : List Char) : List (List Char) :=
  (splitByNonDigit response).filter fun piece => decide (piece ≠ [])

/-- First-occurrence de-duplication: an element equal to an earlier one is
discarded, as in the claimed parsing. -/
def dedupFirstAux (seen : List ℕ) : List ℕ → List ℕ
  | [] => []
  | x :: xs => if x ∈ seen then dedupFirstAux seen xs else x :: dedupFirstAux (x :: seen) xs

/-- First-occurrence de-duplication of a whole list. -/
def dedupFirst (l : List ℕ) : List ℕ := dedupFirstAux [] l

/-- The parsing as claim C6 states it: every maximal digit run is a
candidate, out-of-range indices and duplicates of earlier indices are
discarded, the first 20 survivors are kept. -/
def specParseIndicesC6 (response : List Char) (n : ℕ) : List ℕ :=
  (dedupFirst (((digitRuns response).map digitsToNat).filter
    fun idx => decide (0 < idx ∧ idx ≤ n))).take 20

/-- The parsing as claim C6 holds after removing the de-duplication step,
which the code does not perform. -/
def specParseIndicesNoDedup (response : List Char) (n : ℕ) : List ℕ :=
  ((((digitRuns response).map digitsToNat).filter
    fun idx => decide (0 < idx ∧ idx ≤ n)).take 20)

/-! ## URL query encoding (robin-core/src/search_engines.rs) -/

/-- The unreserved characters of `urlencoded` (search_engines.rs, line 31). -/
def isUnreservedChar (c : Char) : Bool :=
  decide (('a' ≤ c ∧ c ≤ 'z') ∨ ('A' ≤ c ∧ c ≤ 'Z') ∨ ('0' ≤ c ∧ c ≤ '9')
    ∨ c = '-' ∨ c = '_' ∨ c = '.' ∨ c = '~')

/-- Upper-case hexadecimal digit for a value below 16. -/
def hexDigitUpper (k : ℕ) : Char :=
  if k < 10 then Char.ofNat (48 + k) else Char.ofNat (55 + k)

/-- Per-character step of `urlencoded` (search_engines.rs, lines 30-34):
unreserved characters pass, space becomes `'+'`, anything else becomes
`%HH` of `c as u8` — the LOW BYTE of the character's scalar value. -/
def encodeChar (c : Char) : List Char :=
  if isUnreservedChar c then [c]
  else if c = ' ' then ['+']
  else ['%', hexDigitUpper (c.toNat % 256 / 16), hexDigitUpper (c.toNat % 256 % 16)]

/-- Embeds `urlencoded` (search_engines.rs, lines 28-36). -/
def urlencoded : List Char → List Char
  | [] => []
  | c :: cs => encodeChar c ++ urlencoded cs

/-- Value of a hexadecimal digit character. -/
def hexVal (c : Char) : Option ℕ :=
  if '0' ≤ c ∧ c ≤ '9' then some (c.toNat - 48)
  else if 'A' ≤ c ∧ c ≤ 'F' then some (c.toNat - 55)
  else if 'a' ≤ c ∧ c ≤ 'f' then some (c.toNat - 87)
  else none

/-- Modelled from the spec: the standard percent-decoder the round-trip law
of §8 refers to (`%HH` becomes the character with code `HH`, `'+'` becomes
space, everything else passes through; `none` on a malformed escape). -/
def urldecode : List Char → Option (List Char)
  | [] => some []
  | c :: rest =>
    if c = '%' then
      match rest with
      | h :: l :: rest2 =>
        match hexVal h, hexVal l with
        | some hv, some lv => (urldecode rest2).map fun t => Char.ofNat (16 * hv + lv) :: t
        | _, _ => none
      | _ => none
    else if c = '+' then (urldecode rest).map fun t => ' ' :: t
    else (urldecode rest).map fun t => c :: t

/-! ## Scrape-text truncation (robin-tor/src/scraper.rs) -/

/-- Number of bytes of a character's UTF-8 encoding. -/
def utf8Width (c : Char) : ℕ :=
  if c.toNat < 128 then 1
  else if c.toNat < 2048 then 2
  else if c.toNat < 65536 then 3
  else 4

/-- Rust `str::len()`: the UTF-8 byte length of the text. -/
def utf8Len (text : List Char) : ℕ :=
  (text.map utf8Width).sum

/-- Rust byte slicing `&text[..k]`: `some` prefix when `k` bytes end on a
character boundary, `none` when the slice panics mid-character (or past the
end). -/
def takeBytes : ℕ → List Char → Option (List Char)
  | k, [] => if k = 0 then some [] else none
  | k, c :: cs =>
    if k = 0 then some []
    else if utf8Width c ≤ k then (takeBytes (k - utf8Width c) cs).map fun t => c :: t
    else none

/-- Maximum characters to extract per page (scraper.rs, line 26); the code
applies it to `text.len()`, a byte count. -/
def MAX_CONTENT_LENGTH : ℕ := 4000

/-- Embeds the truncation step of `scrape_url` (scraper.rs, lines 50-55):
when `text.len() > 4000` the emitted text is `&text[..4000]` followed by
`...(truncated)`; `none` when that byte slice panics mid-character. -/
def truncateScrapeText (text : List Char) : Option (List Char) :=
  if utf8Len text > MAX_CONTENT_LENGTH then
    (takeBytes MAX_CONTENT_LENGTH text).map fun t => t ++ "...(truncated)".toList
  else some text

/-! ## Analyst agent (robin-agents/src/analyst.rs) -/

/-- Agent failure taxonomy (robin-agents/src/traits.rs). -/
inductive AgentError where
  | llm (msg : String)
  | network (msg : String)
  | parseFailure (msg : String)
  | noWork
  | notReady (msg : String)
deriving DecidableEq

/-- Whether a payload is a `RefinedQuery`. -/
def isRefinedQuery : OsintPayload → Bool
  | .refinedQuery .. => true
  | _ => false

/-- Whether a payload is a `ScrapedContent`. -/
def isScrapedContent : OsintPayload → Bool
  | .scrapedContent .. => true
  | _ => false

/-- Whether a payload is an `ExtractedArtifacts`. -/
def isExtractedArtifacts : OsintPayload → Bool
  | .extractedArtifacts .. => true
  | _ => false

/-- Embeds `Field::sense_where` (field.rs, lines 99-104) for a decidable
predicate: all live signals satisfying it. -/
def Field.senseWhere (f : Field) (p : Signal → Bool) : List Signal :=
  (f.signals.map Prod.snd).filter p

/-- The live `ScrapedContent` signals the analyst counts. -/
def scrapedContentSignals (f : Field) : List Signal :=
  f.senseWhere fun s => isScrapedContent s.payload

/-- The query string `AnalystAgent::process` extracts (analyst.rs,
lines 152-166). -/
def analystQuery (f : Field) : String :=
  match f.senseWhere fun s => isRefinedQuery s.payload with
  | [] => "Unknown query"
  | s :: _ =>
    match s.payload with
    | .refinedQuery original _ _ => original
    | _ => "Unknown query"

/-- The `(url, text)` pairs of the live `ScrapedContent` signals
(analyst.rs, lines 197-206). -/
def analystContent (f : Field) : List (String × String) :=
  (scrapedContentSignals f).filterMap fun s =>
    match s.payload with
    | .scrapedContent url _ text _ => some (url, text)
    | _ => none

/-- The flattened artifacts of the live `ExtractedArtifacts` signals
(analyst.rs, lines 209-219). -/
def analystArtifacts (f : Field) : List Artifact :=
  ((f.senseWhere fun s => isExtractedArtifacts s.payload).map fun s =>
    match s.payload with
    | .extractedArtifacts _ artifacts => artifacts
    | _ => []).flatten

/-- Embeds `AnalystAgent::process` (analyst.rs, lines 146-243).  The local
state is the `summary_generated` flag; the LLM call of `generate_summary`
is an external input, passed as `llm` (`Except` of its message on failure
or the produced markdown); `now` and `uuid` feed the signal builder.
Returns the new flag, the new field and the process result. -/
noncomputable def analystProcess (agent_id : String) (summary_generated : Bool)
    (f : Field) (llm : Except String String) (now : ℤ) (uuid : ℕ) :
    Bool × Field × Except AgentError (List HashKey) :=
  if summary_generated then (summary_generated, f, .error .noWork)
  else
    let content_signals := scrapedContentSignals f
    if content_signals.length < 3 then
      (summary_generated, f, .error (.notReady
        ("Only " ++ toString content_signals.length ++ " content signals, waiting for more")))
    else
      let content := analystContent f
      let artifacts := analystArtifacts f
      match llm with
      | .error e => (summary_generated, f, .error (.llm e))
      | .ok markdown =>
        let signal := (((((SignalBuilder.new
          (.summary markdown artifacts.length content.length)).setOrigin
            agent_id).setConfidence 0.95).setTtl 300).build now uuid)
        let emitted := f.emit signal
        (true, emitted.1, .ok [emitted.2])

/-- One activation's external inputs for the analyst. -/
structure AnalystStep where
  field : Field
  llm : Except String String
  now : ℤ
  uuid : ℕ

/-- Number of signals a process result emitted. -/
def emittedCount : Except AgentError (List HashKey) → ℕ
  | .ok hashes => hashes.length
  | .error _ => 0

/-- Total number of signals the analyst emits across a sequence of
activations, threading the `summary_generated` flag. -/
noncomputable def analystRun (agent_id : String) : Bool → List AnalystStep → ℕ
  | _, [] => 0
  | g, step :: rest =>
    let r := analystProcess agent_id g step.field step.llm step.now step.uuid
    emittedCount r.2.2 + analystRun agent_id r.1 rest

/-- An activation on which the analyst can produce its summary: at least 3
live `ScrapedContent` signals and a successful LLM call. -/
def stepReady (step : AnalystStep) : Bool :=
  decide (3 ≤ (scrapedContentSignals step.field).length) && step.llm.isOk

/-! ## Helper lemmas about the embedded map operations -/

theorem lookupSig_eq_none_of_not_contains {k : HashKey} {l : List (HashKey × Signal)}
    (h : containsKey k l = false) : lookupSig k l = none := by
  induction l with
  | nil => rfl
  | cons e rest ih =>
    unfold containsKey at h
    unfold lookupSig
    split at h
    · exact absurd h (by simp)
    · next hne => simp only [if_neg hne]; exact ih h

theorem countKey_eq_zero_of_not_contains {k : HashKey} {l : List (HashKey × Signal)}
    (h : containsKey k l = false) : countKey k l = 0 := by
  induction l with
  | nil => rfl
  | cons e rest ih =>
    unfold containsKey at h
    split at h
    · exact absurd h (by simp)
    · next hne =>
      unfold countKey at ih ⊢
      simpa [hne] using ih h

theorem lookupSig_append_single {k : HashKey} {l : List (HashKey × Signal)} {s : Signal}
    (h : containsKey k l = false) : lookupSig k (l ++ [(k, s)]) = some s := by
  induction l with
  | nil => simp [lookupSig]
  | cons e rest ih =>
    unfold containsKey at h
    split at h
    · exact absurd h (by simp)
    · next hne => simpa [lookupSig, hne] using ih h

theorem countKey_append_single {k : HashKey} {l : List (HashKey × Signal)} {s : Signal} :
    countKey k (l ++ [(k, s)]) = countKey k l + 1 := by
  unfold countKey
  simp

theorem reinforceKey_append_single {k : HashKey} {l : List (HashKey × Signal)} {s : Signal}
    {r : String} (h : containsKey k l = false) :
    reinforceKey k r (l ++ [(k, s)]) = l ++ [(k, s.reinforce r)] := by
  induction l with
  | nil => simp [reinforceKey]
  | cons e rest ih =>
    unfold containsKey at h
    split at h
    · exact absurd h (by simp)
    · next hne => simpa [reinforceKey, hne] using ih h

theorem containsKey_cons (k : HashKey) (e : HashKey × Signal)
    (rest : List (HashKey × Signal)) :
    containsKey k (e :: rest) = if e.1 = k then true else containsKey k rest := rfl

theorem countKey_cons (k : HashKey) (e : HashKey × Signal)
    (rest : List (HashKey × Signal)) :
    countKey k (e :: rest) = (if e.1 = k then 1 else 0) + countKey k rest := by
  unfold countKey
  by_cases he : e.1 = k <;> simp [List.filter_cons, he, Nat.add_comm]

theorem containsKey_append_single_self {k : HashKey} {l : List (HashKey × Signal)}
    {s : Signal} : containsKey k (l ++ [(k, s)]) = true := by
  induction l with
  | nil => simp [containsKey]
  | cons e rest ih =>
    rw [List.cons_append, containsKey_cons]
    by_cases he : e.1 = k <;> simp [he, ih]

theorem lookupSig_reinforceKey_self {k : HashKey} {r : String}
    (l : List (HashKey × Signal)) :
    lookupSig k (reinforceKey k r l) = (lookupSig k l).map fun s => s.reinforce r := by
  induction l with
  | nil => rfl
  | cons e rest ih =>
    unfold reinforceKey
    by_cases he : e.1 = k
    · simp [lookupSig, he]
    · simpa [lookupSig, he] using ih

theorem lookupSig_reinforceKey_other {k k' : HashKey} {r : String}
    (hne : k' ≠ k) (l : List (HashKey × Signal)) :
    lookupSig k' (reinforceKey k r l) = lookupSig k' l := by
  induction l with
  | nil => rfl
  | cons e rest ih =>
    unfold reinforceKey
    by_cases he : e.1 = k
    · rw [he]
      simp [lookupSig, Ne.symm hne, he]
    · simp only [if_neg he]
      by_cases he' : e.1 = k' <;> simp [lookupSig, he', ih]

theorem length_reinforceKey {k : HashKey} {r : String} (l : List (HashKey × Signal)) :
    (reinforceKey k r l).length = l.length := by
  induction l with
  | nil => rfl
  | cons e rest ih =>
    unfold reinforceKey
    by_cases he : e.1 = k <;> simp [he, ih]

theorem countKey_reinforceKey {k k' : HashKey} {r : String} (l : List (HashKey × Signal)) :
    countKey k' (reinforceKey k r l) = countKey k' l := by
  induction l with
  | nil => rfl
  | cons e rest ih =>
    unfold reinforceKey
    by_cases he : e.1 = k
    · simp only [if_pos he]
      rw [countKey_cons, countKey_cons]
    · simp only [if_neg he]
      rw [countKey_cons, countKey_cons, ih]

theorem reinforceKey_eq_self {k : HashKey} {r : String} {l : List (HashKey × Signal)}
    {s : Signal} (hl : lookupSig k l = some s) (hs : s.reinforce r = s) :
    reinforceKey k r l = l := by
  induction l with
  | nil => rfl
  | cons e rest ih =>
    unfold lookupSig at hl
    unfold reinforceKey
    by_cases he : e.1 = k
    · simp only [if_pos he] at hl ⊢
      obtain rfl : e.2 = s := by simpa using hl
      rw [hs]
    · simp only [if_neg he] at hl ⊢
      rw [ih hl]

/-! ## Helper lemmas about `Signal.reinforce` -/

theorem Signal.reinforce_of_mem {s : Signal} {r : String}
    (h : r ∈ s.reinforced_by) : s.reinforce r = s := by
  unfold Signal.reinforce
  simp [h]

theorem Signal.reinforce_frame (s : Signal) (r : String) :
    (s.reinforce r).id = s.id ∧
    (s.reinforce r).origin_hash = s.origin_hash ∧
    (s.reinforce r).payload = s.payload ∧
    (s.reinforce r).intensity = s.intensity ∧
    (s.reinforce r).current_intensity = s.current_intensity ∧
    (s.reinforce r).ttl = s.ttl ∧
    (s.reinforce r).decay_rate = s.decay_rate ∧
    (s.reinforce r).decay_function = s.decay_function ∧
    (s.reinforce r).origin_agent_id = s.origin_agent_id ∧
    (s.reinforce r).created_at = s.created_at := by
  unfold Signal.reinforce
  split <;> simp

theorem Signal.reinforce_of_not_mem {s : Signal} {r : String}
    (h : r ∉ s.reinforced_by) :
    (s.reinforce r).reinforced_by = s.reinforced_by ++ [r] ∧
    (s.reinforce r).reinforcement_count = s.reinforcement_count + 1 ∧
    (s.reinforce r).confidence =
      min (s.confidence + 0.1 / (1 + ((s.reinforcement_count + 1 : ℕ) : ℚ) * 0.5)) 1 := by
  unfold Signal.reinforce
  simp [h]

theorem Signal.compute_intensity_reinforce (s : Signal) (r : String) (t : ℤ) :
    (s.reinforce r).compute_intensity t = s.compute_intensity t := by
  unfold Signal.reinforce
  split
  · rfl
  · rfl

theorem Signal.is_expired_reinforce (s : Signal) (r : String) (t : ℤ) :
    (s.reinforce r).is_expired t ↔ s.is_expired t := by
  unfold Signal.is_expired
  rw [Signal.compute_intensity_reinforce]
  unfold Signal.age
  unfold Signal.reinforce
  split
  · rfl
  · rfl

/-! ## Time advance lemmas and claim C5 -/

theorem ratTruncZ_nonneg {q : ℚ} (h : 0 ≤ q) : 0 ≤ ratTruncZ q := by
  unfold ratTruncZ
  rw [if_pos h]
  exact Int.floor_nonneg.mpr h

theorem i64Sat_nonneg {x : ℤ} (h : 0 ≤ x) : 0 ≤ i64Sat x := by
  unfold i64Sat
  have hm : (0 : ℤ) ≤ min (2 ^ 63 - 1) x := le_min (by norm_num) h
  exact le_trans hm (le_max_right _ _)

theorem advanceMs_nonneg {dt : ℚ} (h : 0 ≤ dt) : 0 ≤ advanceMs dt :=
  i64Sat_nonneg (ratTruncZ_nonneg (by positivity))

theorem advanceMs_of_intCast {k : ℤ} {dt : ℚ} (hdt : dt * 1000 = (k : ℚ))
    (h0 : 0 ≤ k) (hk : k < 2 ^ 63) : advanceMs dt = k := by
  unfold advanceMs ratTruncZ
  rw [hdt, if_pos (by exact_mod_cast h0), Int.floor_intCast]
  unfold i64Sat
  rw [min_eq_right (by omega), max_eq_right (by omega)]

theorem Field.Tick.time_eq {f : Field} {dt : ℚ} {f' : Field} (h : f.Tick dt f') :
    f'.current_time = f.current_time + advanceMs dt := by
  obtain ⟨kept, dropped, _, _, ht, _, _⟩ := h
  exact ht

/-- A sequence of tick calls chained through intermediate fields. -/
inductive TickChain : Field → List ℚ → Field → Prop where
  | nil (f : Field) : TickChain f [] f
  | cons {f f' f'' : Field} {dt : ℚ} {dts : List ℚ} :
      f.Tick dt f' → TickChain f' dts f'' → TickChain f (dt :: dts) f''

theorem TickChain.time_mono {f f'' : Field} {dts : List ℚ} (h : TickChain f dts f'')
    (hnn : dts.Forall fun d => 0 ≤ d) : f.current_time ≤ f''.current_time := by
  induction h with
  | nil f => exact le_refl _
  | cons htick hchain ih =>
    rw [List.forall_cons] at hnn
    have h1 : _ ≤ _ := ih hnn.2
    have h2 := htick.time_eq
    have h3 := advanceMs_nonneg hnn.1
    omega

/-- A tick of a field with no live signals: only the clock moves. -/
theorem tick_empty (t0 : ℤ) (dt : ℚ) :
    (Field.new t0).Tick dt ⟨[], [], t0 + advanceMs dt, 10000⟩ :=
  ⟨[], [], .nil, rfl, rfl, rfl, rfl⟩

/-- Claim C5, corrected.  `Field::tick(dt_seconds)` advances `current_time`
by `(dt_seconds * 1000.0) as i64` milliseconds — `dt` truncated toward zero
to a whole number of milliseconds and saturated to the `i64` range — which
equals exactly `dt_seconds` only when `1000·dt` is an integer in range;
across any sequence of ticks with `dt ≥ 0` the clock is non-decreasing. -/
theorem C5_tick_advances_by_truncated_ms :
    ∀ (f : Field) (dt : ℚ) (f' : Field), f.Tick dt f' →
      (f'.current_time = f.current_time + i64Sat (ratTruncZ (dt * 1000))) ∧
      (∀ k : ℤ, dt * 1000 = (k : ℚ) → 0 ≤ k → k < 2 ^ 63 →
        ((f'.current_time - f.current_time : ℤ) : ℚ) / 1000 = dt) ∧
      (0 ≤ dt → f.current_time ≤ f'.current_time) ∧
      (∀ (g : Field) (dts : List ℚ) (g' : Field), TickChain g dts g' →
        (dts.Forall fun d => 0 ≤ d) → g.current_time ≤ g'.current_time) := by
  intro f dt f' h
  refine ⟨h.time_eq, ?_, ?_, fun g dts g' hc hnn => hc.time_mono hnn⟩
  · intro k hdt h0 hk
    rw [h.time_eq]
    show ((f.current_time + advanceMs dt - f.current_time : ℤ) : ℚ) / 1000 = dt
    rw [advanceMs_of_intCast hdt h0 hk]
    have : (f.current_time + k - f.current_time : ℤ) = k := by omega
    rw [this]
    rw [← hdt]
    field_simp
  · intro hdt
    rw [h.time_eq]
    have := advanceMs_nonneg hdt
    omega

/-- Witness for C5 at a concrete tick: `dt = 1 s` advances an empty field's
clock from `0` to `1000` ms. -/
theorem C5_tick_advances_by_truncated_ms_witness :
    (Field.new 0).Tick 1 ⟨[], [], 1000, 10000⟩ ∧
    (⟨[], [], 1000, 10000⟩ : Field).current_time =
      (Field.new 0).current_time + i64Sat (ratTruncZ (1 * 1000)) := by
  have hms : (0 : ℤ) + advanceMs 1 = 1000 := by
    norm_num [advanceMs, ratTruncZ, i64Sat]
  have htick := tick_empty 0 1
  rw [hms] at htick
  exact ⟨htick, (C5_tick_advances_by_truncated_ms _ _ _ htick).1⟩

/-- Counterexample to C5 as stated: a tick with `dt = 1/2000 s` (half a
millisecond) advances the clock by `0`, not by `dt`. -/
theorem C5_counterexample :
    (Field.new 0).Tick (1 / 2000) (Field.new 0) ∧
    ¬ (((Field.new 0).current_time - (Field.new 0).current_time : ℤ) : ℚ) / 1000
        = 1 / 2000 := by
  constructor
  · have hms : (0 : ℤ) + advanceMs (1 / 2000) = 0 := by
      norm_num [advanceMs, ratTruncZ, i64Sat]
    have htick := tick_empty 0 (1 / 2000)
    rw [hms] at htick
    exact htick
  · norm_num [Field.new]

/-! ## Branch lemmas for `Field.emit` -/

theorem Field.emit_present {f : Field} {s : Signal}
    (h : containsKey s.origin_hash f.signals = true) :
    f.emit s = ({ f with signals := reinforceKey s.origin_hash s.origin_agent_id f.signals },
      s.origin_hash) := by
  simp only [Field.emit]
  rw [h]
  simp

theorem Field.emit_absent {f : Field} {s : Signal}
    (h : containsKey s.origin_hash f.signals = false) :
    f.emit s = ({ f with signals := f.signals ++ [(s.origin_hash, s)] }, s.origin_hash) := by
  simp only [Field.emit]
  rw [h]
  simp

/-! ## Claim C1: emitting the same payload twice from the same origin -/

/-- Claim C1, confirmed.  Starting from a field not holding the hash of
`(payload, origin)`, a first emission inserts the built signal and a second
emission of the same content reinforces it: exactly one live signal carries
that `origin_hash`, with `reinforcement_count = 1`, its confidence grew by
at most `0.1 / (1 + 0.5·1)` and is clamped to at most `1`, and a third
identical emission returns the hash and leaves the field unchanged
(reinforcement by an id already in `reinforced_by` is a no-op). -/
theorem C1_emit_same_payload_twice_reinforces_once :
    ∀ (f : Field) (b : SignalBuilder) (t₁ t₂ t₃ : ℤ) (u₁ u₂ u₃ : ℕ),
      containsKey (compute_origin_hash b.payload b.origin_agent_id) f.signals = false →
      countKey (compute_origin_hash b.payload b.origin_agent_id)
          ((f.emit (b.build t₁ u₁)).1.emit (b.build t₂ u₂)).1.signals = 1 ∧
      lookupSig (compute_origin_hash b.payload b.origin_agent_id)
          ((f.emit (b.build t₁ u₁)).1.emit (b.build t₂ u₂)).1.signals
        = some ((b.build t₁ u₁).reinforce b.origin_agent_id) ∧
      ((b.build t₁ u₁).reinforce b.origin_agent_id).reinforcement_count = 1 ∧
      ((b.build t₁ u₁).reinforce b.origin_agent_id).confidence
          - (b.build t₁ u₁).confidence ≤ 0.1 / (1 + 0.5 * 1) ∧
      ((b.build t₁ u₁).reinforce b.origin_agent_id).confidence ≤ 1 ∧
      ((f.emit (b.build t₁ u₁)).1.emit (b.build t₂ u₂)).1.emit (b.build t₃ u₃)
        = (((f.emit (b.build t₁ u₁)).1.emit (b.build t₂ u₂)).1,
            compute_origin_hash b.payload b.origin_agent_id) := by
  intro f b t₁ t₂ t₃ u₁ u₂ u₃ hfree
  have hnotmem : b.origin_agent_id ∉ (b.build t₁ u₁).reinforced_by := by
    show b.origin_agent_id ∉ []
    simp
  obtain ⟨hby, hcnt, hconf⟩ := Signal.reinforce_of_not_mem hnotmem
  have hfree1 : containsKey (b.build t₁ u₁).origin_hash f.signals = false := hfree
  have hstep1 : (f.emit (b.build t₁ u₁)).1.signals
      = f.signals ++ [(compute_origin_hash b.payload b.origin_agent_id, b.build t₁ u₁)] := by
    rw [Field.emit_absent hfree1]
    rfl
  have hpresent2 : containsKey (b.build t₂ u₂).origin_hash
      (f.emit (b.build t₁ u₁)).1.signals = true := by
    rw [hstep1]
    exact containsKey_append_single_self
  have hstep2 : ((f.emit (b.build t₁ u₁)).1.emit (b.build t₂ u₂)).1.signals
      = f.signals ++ [(compute_origin_hash b.payload b.origin_agent_id,
          (b.build t₁ u₁).reinforce b.origin_agent_id)] := by
    rw [Field.emit_present hpresent2]
    show reinforceKey (b.build t₂ u₂).origin_hash (b.build t₂ u₂).origin_agent_id
        (f.emit (b.build t₁ u₁)).1.signals = _
    rw [hstep1]
    exact reinforceKey_append_single hfree1
  have hlook : lookupSig (compute_origin_hash b.payload b.origin_agent_id)
      ((f.emit (b.build t₁ u₁)).1.emit (b.build t₂ u₂)).1.signals
      = some ((b.build t₁ u₁).reinforce b.origin_agent_id) := by
    rw [hstep2]
    exact lookupSig_append_single hfree1
  have hcount1 : (b.build t₁ u₁).reinforcement_count = 0 := rfl
  refine ⟨?_, hlook, ?_, ?_, ?_, ?_⟩
  · rw [hstep2, countKey_append_single, countKey_eq_zero_of_not_contains hfree]
  · rw [hcnt, hcount1]
  · rw [hconf, hcount1]
    have hmin : min ((b.build t₁ u₁).confidence + 0.1 / (1 + ((0 + 1 : ℕ) : ℚ) * 0.5)) 1
        ≤ (b.build t₁ u₁).confidence + 0.1 / (1 + ((0 + 1 : ℕ) : ℚ) * 0.5) :=
      min_le_left _ _
    have hc : ((0 + 1 : ℕ) : ℚ) = 1 := by norm_num
    rw [hc] at hmin ⊢
    have hq : (0.1 : ℚ) / (1 + 1 * 0.5) = 0.1 / (1 + 0.5 * 1) := by norm_num
    rw [hq] at hmin
    linarith [hmin]
  · rw [hconf]
    exact min_le_right _ _
  · have hmem : b.origin_agent_id
        ∈ ((b.build t₁ u₁).reinforce b.origin_agent_id).reinforced_by := by
      rw [hby]
      simp
    have hid : ((b.build t₁ u₁).reinforce b.origin_agent_id).reinforce
        ((b.build t₃ u₃).origin_agent_id) = (b.build t₁ u₁).reinforce b.origin_agent_id :=
      Signal.reinforce_of_mem hmem
    have hpresent3 : containsKey (b.build t₃ u₃).origin_hash
        ((f.emit (b.build t₁ u₁)).1.emit (b.build t₂ u₂)).1.signals = true := by
      rw [hstep2]
      exact containsKey_append_single_self
    rw [Field.emit_present hpresent3]
    have hrk : reinforceKey (b.build t₃ u₃).origin_hash (b.build t₃ u₃).origin_agent_id
        ((f.emit (b.build t₁ u₁)).1.emit (b.build t₂ u₂)).1.signals
        = ((f.emit (b.build t₁ u₁)).1.emit (b.build t₂ u₂)).1.signals :=
      reinforceKey_eq_self hlook hid
    rw [hrk]
    rfl

/-- Witness for C1 at a concrete emission: `UserQuery "q"` from agent `a`
emitted into an empty field. -/
theorem C1_emit_same_payload_twice_reinforces_once_witness :
    countKey (compute_origin_hash (.userQuery "q" 1) "a")
        (((Field.new 0).emit
            (((SignalBuilder.new (.userQuery "q" 1)).setOrigin "a").build 0 0)).1.emit
          (((SignalBuilder.new (.userQuery "q" 1)).setOrigin "a").build 0 1)).1.signals = 1 ∧
    ((((SignalBuilder.new (.userQuery "q" 1)).setOrigin "a").build 0 0).reinforce
        ((SignalBuilder.new (.userQuery "q" 1)).setOrigin "a").origin_agent_id).reinforcement_count
      = 1 :=
  ⟨(C1_emit_same_payload_twice_reinforces_once (Field.new 0)
      ((SignalBuilder.new (.userQuery "q" 1)).setOrigin "a") 0 0 0 0 1 2 rfl).1,
   (C1_emit_same_payload_twice_reinforces_once (Field.new 0)
      ((SignalBuilder.new (.userQuery "q" 1)).setOrigin "a") 0 0 0 0 1 2 rfl).2.2.1⟩

/-! ## Claim C10: reinforcement is a frame-preserving update -/

theorem containsKey_of_lookup {k : HashKey} {l : List (HashKey × Signal)} {x : Signal}
    (h : lookupSig k l = some x) : containsKey k l = true := by
  induction l with
  | nil => exact absurd h (by simp [lookupSig])
  | cons e rest ih =>
    unfold lookupSig at h
    unfold containsKey
    by_cases he : e.1 = k
    · simp [he]
    · simp only [if_neg he] at h ⊢
      exact ih h

/-- Claim C10, confirmed.  An emit whose `origin_hash` is already present
only reinforces the stored signal: the field returns the hash, keeps its
clock, history and size, the stored signal is replaced by its reinforcement
(which changes only `reinforced_by`, `reinforcement_count` and
`confidence`), every other key is untouched, decay and expiry of the stored
signal are unchanged, and the incoming signal's own field values beyond its
hash and agent id are discarded. -/
theorem C10_emit_on_present_hash_is_frame_preserving :
    ∀ (f : Field) (s ex : Signal),
      lookupSig s.origin_hash f.signals = some ex →
      (f.emit s).2 = s.origin_hash ∧
      (f.emit s).1.current_time = f.current_time ∧
      (f.emit s).1.history = f.history ∧
      (f.emit s).1.max_history = f.max_history ∧
      (f.emit s).1.signals.length = f.signals.length ∧
      lookupSig s.origin_hash (f.emit s).1.signals
        = some (ex.reinforce s.origin_agent_id) ∧
      (∀ k, k ≠ s.origin_hash → lookupSig k (f.emit s).1.signals = lookupSig k f.signals) ∧
      (ex.reinforce s.origin_agent_id).payload = ex.payload ∧
      (ex.reinforce s.origin_agent_id).intensity = ex.intensity ∧
      (ex.reinforce s.origin_agent_id).current_intensity = ex.current_intensity ∧
      (ex.reinforce s.origin_agent_id).ttl = ex.ttl ∧
      (ex.reinforce s.origin_agent_id).decay_rate = ex.decay_rate ∧
      (ex.reinforce s.origin_agent_id).decay_function = ex.decay_function ∧
      (ex.reinforce s.origin_agent_id).created_at = ex.created_at ∧
      (∀ t, (ex.reinforce s.origin_agent_id).compute_intensity t = ex.compute_intensity t) ∧
      (∀ t, (ex.reinforce s.origin_agent_id).is_expired t ↔ ex.is_expired t) ∧
      (∀ s', s'.origin_hash = s.origin_hash → s'.origin_agent_id = s.origin_agent_id →
        f.emit s' = f.emit s) := by
  intro f s ex hlook
  have hc : containsKey s.origin_hash f.signals = true := containsKey_of_lookup hlook
  have hemit := Field.emit_present hc
  obtain ⟨-, -, hpay, hint, hcur, httl, hrate, hfn, -, hcreated⟩ :=
    Signal.reinforce_frame ex s.origin_agent_id
  refine ⟨?_, ?_, ?_, ?_, ?_, ?_, ?_, hpay, hint, hcur, httl, hrate, hfn, hcreated,
    fun t => Signal.compute_intensity_reinforce ex s.origin_agent_id t,
    fun t => Signal.is_expired_reinforce ex s.origin_agent_id t, ?_⟩
  · rw [hemit]
  · rw [hemit]
  · rw [hemit]
  · rw [hemit]
  · rw [hemit]
    exact length_reinforceKey f.signals
  · rw [hemit]
    show lookupSig s.origin_hash (reinforceKey s.origin_hash s.origin_agent_id f.signals) = _
    rw [lookupSig_reinforceKey_self, hlook]
    rfl
  · intro k hk
    rw [hemit]
    show lookupSig k (reinforceKey s.origin_hash s.origin_agent_id f.signals) = _
    exact lookupSig_reinforceKey_other hk f.signals
  · intro s' hh ha
    have hc' : containsKey s'.origin_hash f.signals = true := by rw [hh]; exact hc
    rw [Field.emit_present hc', hemit, hh, ha]

/-- Fixture for the C10 witness: a stored signal. -/
def sC10a : Signal :=
  { id := 0
    origin_hash := (.userQuery "q" 1, "a")
    payload := .userQuery "q" 1
    intensity := 1
    current_intensity := 1
    ttl := 60
    decay_rate := 0.1
    decay_function := .exponential
    confidence := 0.5
    origin_agent_id := "a"
    created_at := 0
    reinforcement_count := 0
    reinforced_by := [] }

/-- Fixture for the C10 witness: an incoming signal carrying the stored
signal's hash from another agent. -/
def sC10b : Signal :=
  { sC10a with id := 1, origin_agent_id := "b" }

/-- Fixture for the C10 witness: a field holding `sC10a`. -/
def fC10 : Field :=
  { signals := [((.userQuery "q" 1, "a"), sC10a)]
    history := []
    current_time := 0
    max_history := 10000 }

/-- Witness for C10 at a concrete reinforcing emit. -/
theorem C10_emit_on_present_hash_is_frame_preserving_witness :
    (fC10.emit sC10b).2 = sC10b.origin_hash ∧
    (fC10.emit sC10b).1.current_time = fC10.current_time :=
  ⟨(C10_emit_on_present_hash_is_frame_preserving fC10 sC10b sC10a rfl).1,
   (C10_emit_on_present_hash_is_frame_preserving fC10 sC10b sC10a rfl).2.1⟩

/-! ## Claim C2: same payload from a different agent -/

theorem containsKey_append_single_other {k k' : HashKey} {s : Signal}
    {l : List (HashKey × Signal)} (h : k' ≠ k) :
    containsKey k (l ++ [(k', s)]) = containsKey k l := by
  induction l with
  | nil => simp [containsKey, h]
  | cons e rest ih =>
    rw [List.cons_append, containsKey_cons, containsKey_cons, ih]

theorem countKey_append :
    ∀ (k : HashKey) (l l' : List (HashKey × Signal)),
      countKey k (l ++ l') = countKey k l + countKey k l' := by
  intro k l l'
  unfold countKey
  rw [List.filter_append, List.length_append]

theorem countKey_append_single_other {k k' : HashKey} {s : Signal}
    {l : List (HashKey × Signal)} (h : k' ≠ k) :
    countKey k (l ++ [(k', s)]) = countKey k l := by
  rw [countKey_append]
  simp [countKey, h]

theorem lookupSig_append_single_other {k k' : HashKey} {s : Signal}
    {l : List (HashKey × Signal)} (h : k' ≠ k) :
    lookupSig k (l ++ [(k', s)]) = lookupSig k l := by
  induction l with
  | nil => simp [lookupSig, h]
  | cons e rest ih =>
    rw [List.cons_append]
    unfold lookupSig
    by_cases he : e.1 = k <;> simp [he, ih]

/-- Builder fixture for the C2 theorems: a `UserQuery` payload from a given
agent. -/
def bldC2 (agent : String) : SignalBuilder :=
  (SignalBuilder.new (.userQuery "q" 1)).setOrigin agent

/-- Counterexample to C2 as stated: with agent `a`'s signal live, agent `b`
emitting the identical payload does NOT reinforce it — the origin hash
covers `(payload, origin_agent_id)`, so the field ends with TWO live
signals for that content and `b` is not recorded in the stored signal's
`reinforced_by`. -/
theorem C2_counterexample :
    (((Field.new 0).emit ((bldC2 "a").build 0 0)).1.emit
        ((bldC2 "b").build 0 1)).1.active_count = 2 ∧
    ((lookupSig (compute_origin_hash (.userQuery "q" 1) "a")
        (((Field.new 0).emit ((bldC2 "a").build 0 0)).1.emit
          ((bldC2 "b").build 0 1)).1.signals).map fun s => s.reinforced_by) = some [] ∧
    compute_origin_hash (.userQuery "q" 1) "b"
      ≠ compute_origin_hash (.userQuery "q" 1) "a" := by
  refine ⟨?_, ?_, by decide⟩ <;> rfl

/-- Claim C2, amended.  An emission of the same payload `p` by a different
agent `b` is keyed under `b`'s own origin hash: it inserts a second live
signal instead of reinforcing, and the stored signal of agent `a` is left
unchanged (in particular `b` is not recorded in its `reinforced_by`). -/
theorem C2_same_payload_different_agent_inserts :
    ∀ (f : Field) (p : OsintPayload) (a c : String) (t₁ t₂ : ℤ) (u₁ u₂ : ℕ),
      a ≠ c →
      containsKey (compute_origin_hash p a) f.signals = false →
      containsKey (compute_origin_hash p c) f.signals = false →
      countKey (compute_origin_hash p a)
          ((f.emit (((SignalBuilder.new p).setOrigin a).build t₁ u₁)).1.emit
            (((SignalBuilder.new p).setOrigin c).build t₂ u₂)).1.signals = 1 ∧
      countKey (compute_origin_hash p c)
          ((f.emit (((SignalBuilder.new p).setOrigin a).build t₁ u₁)).1.emit
            (((SignalBuilder.new p).setOrigin c).build t₂ u₂)).1.signals = 1 ∧
      lookupSig (compute_origin_hash p a)
          ((f.emit (((SignalBuilder.new p).setOrigin a).build t₁ u₁)).1.emit
            (((SignalBuilder.new p).setOrigin c).build t₂ u₂)).1.signals
        = some (((SignalBuilder.new p).setOrigin a).build t₁ u₁) ∧
      (((SignalBuilder.new p).setOrigin a).build t₁ u₁).reinforced_by = [] ∧
      ((f.emit (((SignalBuilder.new p).setOrigin a).build t₁ u₁)).1.emit
          (((SignalBuilder.new p).setOrigin c).build t₂ u₂)).1.active_count
        = f.active_count + 2 := by
  intro f p a c t₁ t₂ u₁ u₂ hac hfa hfc
  have hkey : compute_origin_hash p c ≠ compute_origin_hash p a := by
    intro h
    exact hac (congrArg Prod.snd h).symm
  have hfa1 : containsKey ((((SignalBuilder.new p).setOrigin a).build t₁ u₁)).origin_hash
      f.signals = false := hfa
  have hstep1 : (f.emit (((SignalBuilder.new p).setOrigin a).build t₁ u₁)).1.signals
      = f.signals ++ [(compute_origin_hash p a,
          ((SignalBuilder.new p).setOrigin a).build t₁ u₁)] := by
    rw [Field.emit_absent hfa1]
    rfl
  have hfc1 : containsKey ((((SignalBuilder.new p).setOrigin c).build t₂ u₂)).origin_hash
      (f.emit (((SignalBuilder.new p).setOrigin a).build t₁ u₁)).1.signals = false := by
    rw [hstep1]
    show containsKey (compute_origin_hash p c) _ = false
    rw [containsKey_append_single_other (Ne.symm hkey)]
    exact hfc
  have hstep2 : ((f.emit (((SignalBuilder.new p).setOrigin a).build t₁ u₁)).1.emit
        (((SignalBuilder.new p).setOrigin c).build t₂ u₂)).1.signals
      = (f.signals ++ [(compute_origin_hash p a,
          ((SignalBuilder.new p).setOrigin a).build t₁ u₁)])
        ++ [(compute_origin_hash p c,
          ((SignalBuilder.new p).setOrigin c).build t₂ u₂)] := by
    rw [Field.emit_absent hfc1, hstep1]
    rfl
  refine ⟨?_, ?_, ?_, rfl, ?_⟩
  · rw [hstep2, countKey_append_single_other hkey, countKey_append_single,
      countKey_eq_zero_of_not_contains hfa]
  · rw [hstep2, countKey_append_single, countKey_append_single_other (Ne.symm hkey),
      countKey_eq_zero_of_not_contains hfc]
  · rw [hstep2, lookupSig_append_single_other hkey]
    exact lookupSig_append_single hfa
  · show ((f.emit _).1.emit _).1.signals.length = f.signals.length + 2
    rw [hstep2]
    simp

/-- Witness for the amended C2 at concrete agents `a` and `b`. -/
theorem C2_same_payload_different_agent_inserts_witness :
    countKey (compute_origin_hash (.userQuery "q" 1) "a")
        (((Field.new 0).emit (((SignalBuilder.new (.userQuery "q" 1)).setOrigin "a").build 0 0)).1.emit
          (((SignalBuilder.new (.userQuery "q" 1)).setOrigin "b").build 0 1)).1.signals = 1 ∧
    (((Field.new 0).emit
        (((SignalBuilder.new (.userQuery "q" 1)).setOrigin "a").build 0 0)).1.emit
          (((SignalBuilder.new (.userQuery "q" 1)).setOrigin "b").build 0 1)).1.active_count
      = (Field.new 0).active_count + 2 :=
  ⟨(C2_same_payload_different_agent_inserts (Field.new 0) (.userQuery "q" 1) "a" "b"
      0 0 0 1 (by decide) rfl rfl).1,
   (C2_same_payload_different_agent_inserts (Field.new 0) (.userQuery "q" 1) "a" "b"
      0 0 0 1 (by decide) rfl rfl).2.2.2.2⟩

/-! ## Claim C4: after a tick no live signal is expired -/

theorem SplitRel.not_of_mem_kept {p : α → Prop} {l kept dropped : List α}
    (h : SplitRel p l kept dropped) : ∀ a ∈ kept, ¬ p a := by
  induction h with
  | nil => simp
  | keep hp _ ih =>
    intro a ha
    rcases List.mem_cons.mp ha with rfl | ha
    · exact hp
    · exact ih a ha
  | drop _ _ ih => exact ih

/-- Claim C4, confirmed.  After `Field::tick`, every signal left in the
live map is unexpired at the field's new `current_time` — its age is below
its `ttl` and its decayed intensity is at least `0.01` — and (for a
non-negative `dt`) no signal with `ttl = 0` whose creation time is not in
the future of the field clock survives the tick: it is expired and
removed. -/
theorem C4_tick_leaves_no_expired_signal :
    ∀ (f : Field) (dt : ℚ) (f' : Field), f.Tick dt f' →
      (f'.signals.Forall fun e => ¬ e.2.is_expired f'.current_time) ∧
      (f'.signals.Forall fun e =>
        e.2.age f'.current_time < e.2.ttl ∧
        (0.01 : ℝ) ≤ e.2.compute_intensity f'.current_time) ∧
      (0 ≤ dt → f'.signals.Forall fun e =>
        ¬ (e.2.ttl = 0 ∧ e.2.created_at ≤ f.current_time)) := by
  intro f dt f' h
  obtain ⟨kept, dropped, hsplit, hsig, htime, -, -⟩ := h
  have hkept := hsplit.not_of_mem_kept
  have hnotexp : ∀ e ∈ f'.signals, ¬ e.2.is_expired f'.current_time := by
    intro e he
    rw [htime]
    exact hkept e (hsig ▸ he)
  refine ⟨List.forall_iff_forall_mem.mpr hnotexp, ?_, ?_⟩
  · rw [List.forall_iff_forall_mem]
    intro e he
    have hne := hnotexp e he
    unfold Signal.is_expired at hne
    push_neg at hne
    exact ⟨hne.1, hne.2⟩
  · intro hdt
    rw [List.forall_iff_forall_mem]
    rintro e he ⟨httl, hcreated⟩
    apply hnotexp e he
    left
    rw [httl, htime]
    unfold Signal.age
    have hT : e.2.created_at ≤ f.current_time + advanceMs dt :=
      le_trans hcreated (by have := advanceMs_nonneg hdt; omega)
    have hnum : (0 : ℚ) ≤ ((f.current_time + advanceMs dt - e.2.created_at : ℤ) : ℚ) := by
      exact_mod_cast Int.sub_nonneg.mpr hT
    positivity

/-- Fixture for the C4 witness: a signal with `ttl = 0`. -/
def sC4 : Signal :=
  { id := 0
    origin_hash := (.userQuery "q" 1, "a")
    payload := .userQuery "q" 1
    intensity := 1
    current_intensity := 1
    ttl := 0
    decay_rate := 0.1
    decay_function := .exponential
    confidence := 1
    origin_agent_id := "a"
    created_at := 0
    reinforcement_count := 0
    reinforced_by := [] }

/-- Fixture for the C4 witness: a field holding only `sC4`. -/
def fC4 : Field :=
  { signals := [((.userQuery "q" 1, "a"), sC4)]
    history := []
    current_time := 0
    max_history := 10000 }

/-- Fixture for the C4 witness: the field after `tick(1.0)` — the `ttl = 0`
signal has moved to the history. -/
noncomputable def fC4' : Field :=
  { signals := []
    history := [{ sC4 with current_intensity := sC4.compute_intensity ((0 : ℤ) + advanceMs 1) }]
    current_time := (0 : ℤ) + advanceMs 1
    max_history := 10000 }

/-- The concrete tick of the C4 witness. -/
theorem fC4_tick : fC4.Tick 1 fC4' := by
  have hms : advanceMs 1 = 1000 := by norm_num [advanceMs, ratTruncZ, i64Sat]
  refine ⟨[], [refreshEntry (fC4.current_time + advanceMs 1) ((.userQuery "q" 1, "a"), sC4)],
    ?_, rfl, rfl, rfl, rfl⟩
  refine SplitRel.drop ?_ SplitRel.nil
  left
  show Signal.age _ _ ≥ (0 : ℚ)
  unfold Signal.age
  show ((0 + advanceMs 1 - (0 : ℤ) : ℤ) : ℚ) / 1000 ≥ 0
  rw [hms]
  norm_num

/-- Witness for C4 at the concrete tick `fC4_tick`: the `ttl = 0` signal
does not survive. -/
theorem C4_tick_leaves_no_expired_signal_witness :
    fC4.Tick 1 fC4' ∧
    (fC4'.signals.Forall fun e => ¬ e.2.is_expired fC4'.current_time) ∧
    (fC4'.signals.Forall fun e =>
      ¬ (e.2.ttl = 0 ∧ e.2.created_at ≤ fC4.current_time)) :=
  ⟨fC4_tick, (C4_tick_leaves_no_expired_signal fC4 1 fC4' fC4_tick).1,
   (C4_tick_leaves_no_expired_signal fC4 1 fC4' fC4_tick).2.2 (by norm_num)⟩

/-! ## Claim C3: the decay law -/

/-- The decay law as the spec (§4.1) states it, over an age in seconds:
`intensity` for a negative age, `0` from `ttl` on, otherwise the selected
decay curve. -/
noncomputable def specDecayedIntensity (intensity ttl decay_rate : ℚ)
    (df : DecayFunction) (age : ℚ) : ℝ :=
  if age < 0 then (intensity : ℝ)
  else if age ≥ ttl then 0
  else
    match df with
    | .exponential => (intensity : ℝ) * Real.exp (-(decay_rate : ℝ) * (age : ℝ))
    | .linear => max 0 ((intensity : ℝ) * (1 - (age : ℝ) / (ttl : ℝ)))
    | .step => (intensity : ℝ)

/-- Fixture for C3, the signal of the crate's `test_exponential_decay`:
intensity `1.0`, decay rate `0.1`, default ttl `60`, created at `0`. -/
def sC3 : Signal :=
  { id := 0
    origin_hash := (.userQuery "test" 1, "")
    payload := .userQuery "test" 1
    intensity := 1
    current_intensity := 1
    ttl := 60
    decay_rate := 0.1
    decay_function := .exponential
    confidence := 1
    origin_agent_id := ""
    created_at := 0
    reinforcement_count := 0
    reinforced_by := [] }

/-- Claim C3, confirmed.  `Signal::compute_intensity` equals the spec's
piecewise decay law at the age `now − created_at` in seconds, and for
intensity `1.0`, rate `0.1`, exponential decay at age `10 s` the result is
within `0.01` of `0.368`. -/
theorem C3_compute_intensity_matches_spec :
    (∀ (s : Signal) (t : ℤ), s.compute_intensity t
      = specDecayedIntensity s.intensity s.ttl s.decay_rate s.decay_function (s.age t)) ∧
    |sC3.compute_intensity 10000 - 0.368| < 0.01 := by
  constructor
  · intro s t
    unfold Signal.compute_intensity specDecayedIntensity
    by_cases h1 : s.age t < 0
    · simp [h1]
    · simp only [if_neg h1]
      by_cases h2 : s.age t ≥ s.ttl
      · simp [h2]
      · simp only [if_neg h2]
        cases s.decay_function with
        | exponential => rfl
        | linear => exact max_comm _ _
        | step => rw [if_pos (lt_of_not_ge h2)]
  · have hage : sC3.age 10000 = 10 := by norm_num [Signal.age, sC3]
    have hval : sC3.compute_intensity 10000 = Real.exp (-1) := by
      unfold Signal.compute_intensity
      rw [hage]
      norm_num [sC3]
    rw [hval, Real.exp_neg]
    have h1 := Real.exp_one_gt_d9
    have h2 := Real.exp_one_lt_d9
    have hpos : 0 < Real.exp 1 := Real.exp_pos 1
    have hinv : (Real.exp 1)⁻¹ * Real.exp 1 = 1 := inv_mul_cancel₀ (ne_of_gt hpos)
    have hinvpos : 0 < (Real.exp 1)⁻¹ := inv_pos.mpr hpos
    rw [abs_lt]
    constructor <;> nlinarith [hinv, hinvpos, h1, h2]

/-! ## Claim C6: the filter agent's index parsing -/

theorem splitByNonDigit_ne_nil (cs : List Char) : splitByNonDigit cs ≠ [] := by
  cases cs with
  | nil => simp [splitByNonDigit]
  | cons c cs =>
    unfold splitByNonDigit
    by_cases h : c.isDigit
    · simp only [if_pos h]
      cases hsp : splitByNonDigit cs <;> simp
    · simp [h]

theorem splitByNonDigit_all_digits :
    ∀ (cs : List Char) (piece : List Char), piece ∈ splitByNonDigit cs →
      piece.all Char.isDigit = true := by
  intro cs
  induction cs with
  | nil =>
    intro piece hp
    simp only [splitByNonDigit, List.mem_singleton] at hp
    simp [hp]
  | cons c cs ih =>
    intro piece hp
    unfold splitByNonDigit at hp
    by_cases h : c.isDigit
    · simp only [if_pos h] at hp
      cases hsp : splitByNonDigit cs with
      | nil => exact absurd hsp (splitByNonDigit_ne_nil cs)
      | cons p ps =>
        rw [hsp] at hp
        rcases List.mem_cons.mp hp with rfl | hp
        · have hptail : p.all Char.isDigit = true := ih p (by rw [hsp]; exact List.mem_cons_self p ps)
          simp [List.all_cons, h, hptail]
        · exact ih piece (by rw [hsp]; exact List.mem_cons_of_mem p hp)
    · simp only [if_neg h] at hp
      rcases List.mem_cons.mp hp with rfl | hp
      · rfl
      · exact ih piece hp

theorem filterMap_parseUsize_eq :
    ∀ (pieces : List (List Char)), (∀ p ∈ pieces, p.all Char.isDigit = true) →
      pieces.filterMap parseUsize
        = (((pieces.filter fun p => decide (p ≠ [])).map digitsToNat).filter
            fun v => decide (v ≤ USIZE_MAX)) := by
  intro pieces
  induction pieces with
  | nil => intro _; rfl
  | cons p ps ih =>
    intro hall
    have hp : p.all Char.isDigit = true := hall p (List.mem_cons_self p ps)
    have hps := ih fun q hq => hall q (List.mem_cons_of_mem p hq)
    by_cases hne : p = []
    · subst hne
      simp only [List.filterMap_cons]
      rw [show parseUsize [] = none from rfl]
      simpa using hps
    · by_cases hmax : digitsToNat p ≤ USIZE_MAX
      · have : parseUsize p = some (digitsToNat p) := by
          unfold parseUsize
          rw [if_pos ⟨hne, hp, hmax⟩]
        simp [List.filterMap_cons, this, hne, hmax, hps]
      · have : parseUsize p = none := by
          unfold parseUsize
          rw [if_neg]
          rintro ⟨-, -, h⟩
          exact hmax h
        simp [List.filterMap_cons, this, hne, hmax, hps]

/-- Claim C6, amended.  The filter's parsing takes every maximal run of
digits in the LLM response as a candidate index, drops values that do not
fit in `usize` or are out of range `1..=n`, and keeps the first 20 of the
survivors — duplicates of an earlier index are NOT discarded. -/
theorem C6_parse_indices_keeps_duplicates :
    ∀ (response : List Char) (n : ℕ), n ≤ USIZE_MAX →
      parse_indices response n = specParseIndicesNoDedup response n := by
  intro r n hn
  unfold parse_indices specParseIndicesNoDedup digitRuns
  rw [filterMap_parseUsize_eq _ (splitByNonDigit_all_digits r)]
  rw [List.filter_filter]
  congr 1
  apply List.filter_congr
  intro v hv
  by_cases h : 0 < v ∧ v ≤ n
  · simp [h, le_trans h.2 hn]
  · simp [h]

/-- Witness for the amended C6 at a concrete response. -/
theorem C6_parse_indices_keeps_duplicates_witness :
    parse_indices ("1, 2, 2".toList) 3 = specParseIndicesNoDedup ("1, 2, 2".toList) 3 :=
  C6_parse_indices_keeps_duplicates ("1, 2, 2".toList) 3 (by norm_num [USIZE_MAX])

/-- Counterexample to C6 as stated: on the response `"2 2"` with 3 presented
results the code keeps both occurrences (`[2, 2]`) while the claimed
parsing discards the duplicate (`[2]`). -/
theorem C6_counterexample :
    parse_indices ("2 2".toList) 3 = [2, 2] ∧
    specParseIndicesC6 ("2 2".toList) 3 = [2] ∧
    parse_indices ("2 2".toList) 3 ≠ specParseIndicesC6 ("2 2".toList) 3 := by
  refine ⟨by decide, by decide, by decide⟩

/-! ## Claim C7: the URL query encoder -/

theorem hexVal_hexDigitUpper : ∀ k : ℕ, k < 16 → hexVal (hexDigitUpper k) = some k := by
  decide

theorem isUnreservedChar_ne_special {c : Char} (h : isUnreservedChar c = true) :
    c ≠ '%' ∧ c ≠ '+' := by
  constructor <;> rintro rfl <;> simp [isUnreservedChar] at h

theorem urldecode_cons_other {c : Char} (hp : c ≠ '%') (hplus : c ≠ '+')
    (rest : List Char) :
    urldecode (c :: rest) = (urldecode rest).map fun t => c :: t := by
  conv_lhs => unfold urldecode
  rw [if_neg hp, if_neg hplus]

theorem urldecode_cons_plus (rest : List Char) :
    urldecode ('+' :: rest) = (urldecode rest).map fun t => ' ' :: t := by
  conv_lhs => unfold urldecode
  rw [if_neg (by decide), if_pos rfl]

theorem urldecode_cons_pct (h l : Char) (rest : List Char) :
    urldecode ('%' :: h :: l :: rest)
      = match hexVal h, hexVal l with
        | some hv, some lv => (urldecode rest).map fun t => Char.ofNat (16 * hv + lv) :: t
        | _, _ => none := by
  conv_lhs => unfold urldecode
  rw [if_pos rfl]

theorem urldecode_append_encodeChar (c : Char) (rest : List Char)
    (hc : c.toNat < 256) :
    urldecode (encodeChar c ++ rest) = (urldecode rest).map fun t => c :: t := by
  unfold encodeChar
  by_cases hu : isUnreservedChar c
  · obtain ⟨hp, hplus⟩ := isUnreservedChar_ne_special hu
    rw [if_pos hu]
    show urldecode (c :: rest) = _
    rw [urldecode_cons_other hp hplus]
  · rw [if_neg hu]
    by_cases hsp : c = ' '
    · rw [if_pos hsp]
      show urldecode ('+' :: rest) = _
      rw [urldecode_cons_plus, hsp]
    · rw [if_neg hsp]
      have hmod : c.toNat % 256 = c.toNat := Nat.mod_eq_of_lt hc
      have hhi : c.toNat % 256 / 16 < 16 := by omega
      have hlo : c.toNat % 256 % 16 < 16 := by omega
      show urldecode ('%' :: hexDigitUpper (c.toNat % 256 / 16)
          :: hexDigitUpper (c.toNat % 256 % 16) :: rest) = _
      rw [urldecode_cons_pct, hexVal_hexDigitUpper _ hhi, hexVal_hexDigitUpper _ hlo]
      have hchar : Char.ofNat (16 * (c.toNat % 256 / 16) + c.toNat % 256 % 16) = c := by
        rw [Nat.div_add_mod (c.toNat % 256) 16, hmod, Char.ofNat_toNat]
      show (urldecode rest).map
          (fun t => Char.ofNat (16 * (c.toNat % 256 / 16) + c.toNat % 256 % 16) :: t) = _
      rw [hchar]

/-- Claim C7, amended.  Percent-decoding the produced encoding (`'+'`
decoded as space) yields the original string for every string whose
characters have code points below 256.  The encoder emits `%HH` of the LOW
BYTE of the code point (`c as u8`), so the round trip breaks on any wider
character — see the counterexample. -/
theorem C7_urlencoded_roundtrip_below_256 :
    ∀ (s : List Char), (∀ c ∈ s, c.toNat < 256) →
      urldecode (urlencoded s) = some s := by
  intro s hs
  induction s with
  | nil => rfl
  | cons c cs ih =>
    show urldecode (encodeChar c ++ urlencoded cs) = _
    rw [urldecode_append_encodeChar c _ (hs c (List.mem_cons_self c cs))]
    rw [ih fun x hx => hs x (List.mem_cons_of_mem c hx)]
    rfl

/-- Witness for the amended C7 at a concrete query string. -/
theorem C7_urlencoded_roundtrip_below_256_witness :
    urldecode (urlencoded ("a b~%!".toList)) = some ("a b~%!".toList) :=
  C7_urlencoded_roundtrip_below_256 ("a b~%!".toList) (by decide)

/-- Counterexample to C7 as stated: the euro sign (code point `0x20AC`) is
encoded as `%AC` — `0x20AC as u8` — and decodes to the character `0xAC`,
not back to the original string. -/
theorem C7_counterexample :
    urlencoded ['€'] = ['%', 'A', 'C'] ∧
    urldecode (urlencoded ['€']) ≠ some ['€'] := by
  refine ⟨by decide, by decide⟩

/-! ## Claim C8: scrape-text truncation -/

/-- The truncation as claim C8 states it: on a text longer than 4000
CHARACTERS, the first 4000 characters followed by `...(truncated)`; shorter
texts unchanged. -/
def specTruncateChars (text : List Char) : List Char :=
  if text.length > MAX_CONTENT_LENGTH then
    text.take MAX_CONTENT_LENGTH ++ "...(truncated)".toList
  else text

/-- Evidence for the C8 code bug, evaluating the embedded truncation at the
failing inputs: 2001 two-byte characters (4002 UTF-8 bytes) are a text of
at most 4000 characters, which the claim says is emitted unchanged, yet the
code truncates it after 4000 BYTES — 2000 characters; and on 3999 ASCII
characters followed by one two-byte character the byte slice
`&text[..4000]` falls inside a character, where the Rust code panics (the
embedded slice is `none`). -/
theorem utf8Len_nil : utf8Len [] = 0 := rfl

theorem utf8Len_cons (c : Char) (t : List Char) :
    utf8Len (c :: t) = utf8Width c + utf8Len t := by
  simp [utf8Len]

theorem utf8Len_append (s t : List Char) :
    utf8Len (s ++ t) = utf8Len s + utf8Len t := by
  simp [utf8Len]

theorem utf8Len_replicate (n : ℕ) (c : Char) :
    utf8Len (List.replicate n c) = n * utf8Width c := by
  induction n with
  | zero => simp [utf8Len]
  | succ n ih =>
    rw [List.replicate_succ, utf8Len_cons, ih]
    ring

theorem takeBytes_replicate_two_byte :
    ∀ (k n : ℕ), k ≤ n → utf8Width 'é' = 2 →
      takeBytes (2 * k) (List.replicate n 'é') = some (List.replicate k 'é') := by
  intro k
  induction k with
  | zero =>
    intro n _ _
    cases n with
    | zero => rfl
    | succ m =>
      rw [List.replicate_succ]
      rfl
  | succ k ih =>
    intro n hkn hw
    obtain ⟨m, rfl⟩ : ∃ m, n = m + 1 := ⟨n - 1, by omega⟩
    rw [List.replicate_succ]
    show (if 2 * (k + 1) = 0 then some []
      else if utf8Width 'é' ≤ 2 * (k + 1)
        then (takeBytes (2 * (k + 1) - utf8Width 'é') (List.replicate m 'é')).map
          fun t => 'é' :: t
      else none) = _
    rw [if_neg (by omega), hw, if_pos (by omega)]
    have h3 : 2 * (k + 1) - 2 = 2 * k := by omega
    rw [h3, ih m (by omega) hw, List.replicate_succ]
    rfl

theorem takeBytes_skip_ascii :
    ∀ (n budget : ℕ) (tail : List Char), n ≤ budget → utf8Width 'a' = 1 →
      takeBytes budget (List.replicate n 'a' ++ tail)
        = (takeBytes (budget - n) tail).map fun t => List.replicate n 'a' ++ t := by
  intro n
  induction n with
  | zero =>
    intro budget tail _ _
    simp
  | succ n ih =>
    intro budget tail hb hw
    obtain ⟨b, rfl⟩ : ∃ b, budget = b + 1 := ⟨budget - 1, by omega⟩
    rw [List.replicate_succ, List.cons_append]
    show (if b + 1 = 0 then some []
      else if utf8Width 'a' ≤ b + 1
        then (takeBytes (b + 1 - utf8Width 'a') (List.replicate n 'a' ++ tail)).map
          fun t => 'a' :: t
      else none) = _
    rw [if_neg (by omega), hw, if_pos (by omega)]
    have h1 : b + 1 - 1 = b := by omega
    rw [h1, ih b tail (by omega) hw]
    rw [Option.map_map]
    have h2 : b + 1 - (n + 1) = b - n := by omega
    rw [h2]
    rfl

/-- Evidence for the C8 code bug, evaluating the embedded truncation at the
failing inputs: 2001 two-byte characters (4002 UTF-8 bytes) are a text of
at most 4000 characters, which the claim says is emitted unchanged, yet the
code truncates it after 4000 BYTES — 2000 characters; and on 3999 ASCII
characters followed by one two-byte character the byte slice
`&text[..4000]` falls inside a character, where the Rust code panics (the
embedded slice is `none`). -/
theorem C8_truncation_counts_bytes_and_can_panic :
    truncateScrapeText (List.replicate 2001 'é')
      = some (List.replicate 2000 'é' ++ "...(truncated)".toList) ∧
    (List.replicate 2001 'é').length ≤ 4000 ∧
    specTruncateChars (List.replicate 2001 'é') = List.replicate 2001 'é' ∧
    truncateScrapeText (List.replicate 2001 'é')
      ≠ some (specTruncateChars (List.replicate 2001 'é')) ∧
    truncateScrapeText (List.replicate 3999 'a' ++ ['é']) = none := by
  have hwE : utf8Width 'é' = 2 := by decide
  have hwA : utf8Width 'a' = 1 := by decide
  have hsuf : ("...(truncated)".toList).length = 14 := rfl
  have hlenE : utf8Len (List.replicate 2001 'é') = 4002 := by
    rw [utf8Len_replicate, hwE]
  have htrunc : truncateScrapeText (List.replicate 2001 'é')
      = some (List.replicate 2000 'é' ++ "...(truncated)".toList) := by
    unfold truncateScrapeText
    rw [hlenE, if_pos (by norm_num [MAX_CONTENT_LENGTH])]
    show (takeBytes 4000 _).map _ = _
    rw [show (4000 : ℕ) = 2 * 2000 from rfl,
      takeBytes_replicate_two_byte 2000 2001 (by omega) hwE]
    rfl
  have hspec : specTruncateChars (List.replicate 2001 'é') = List.replicate 2001 'é' := by
    unfold specTruncateChars
    rw [if_neg]
    rw [List.length_replicate]
    norm_num [MAX_CONTENT_LENGTH]
  have hlen2001 : (List.replicate 2001 'é').length ≤ 4000 := by
    rw [List.length_replicate]
    norm_num
  refine ⟨htrunc, hlen2001, hspec, ?_, ?_⟩
  · rw [htrunc, hspec]
    intro h
    have hlists := Option.some.inj h
    have hlen := congrArg List.length hlists
    rw [List.length_append, List.length_replicate, List.length_replicate, hsuf] at hlen
    omega
  · have htake1 : takeBytes 1 ['é'] = none := by
      show (if (1 : ℕ) = 0 then some []
        else if utf8Width 'é' ≤ 1 then (takeBytes (1 - utf8Width 'é') []).map
          fun t => 'é' :: t
        else none) = none
      rw [if_neg (by omega), hwE, if_neg (by omega)]
    unfold truncateScrapeText
    rw [utf8Len_append, utf8Len_replicate, hwA,
      show utf8Len ['é'] = 2 from by rw [show (['é'] : List Char) = 'é' :: [] from rfl,
        utf8Len_cons, hwE, utf8Len_nil],
      if_pos (by norm_num [MAX_CONTENT_LENGTH])]
    show (takeBytes 4000 (List.replicate 3999 'a' ++ ['é'])).map _ = none
    rw [takeBytes_skip_ascii 3999 4000 ['é'] (by omega) hwA]
    show ((takeBytes 1 ['é']).map _).map _ = none
    rw [htake1]
    rfl

/-! ## Claim C9: the analyst's lifecycle -/

theorem Field.emit_snd (f : Field) (s : Signal) : (f.emit s).2 = s.origin_hash := by
  simp only [Field.emit]
  split <;> rfl

theorem analystProcess_generated (agent_id : String) (f : Field)
    (llm : Except String String) (now : ℤ) (uuid : ℕ) :
    analystProcess agent_id true f llm now uuid = (true, f, .error .noWork) := by
  simp [analystProcess]

theorem analystProcess_notReady (agent_id : String) (f : Field)
    (llm : Except String String) (now : ℤ) (uuid : ℕ)
    (h : (scrapedContentSignals f).length < 3) :
    analystProcess agent_id false f llm now uuid
      = (false, f, .error (.notReady ("Only "
          ++ toString (scrapedContentSignals f).length
          ++ " content signals, waiting for more"))) := by
  simp [analystProcess, h]

theorem analystProcess_llm_error (agent_id : String) (f : Field) (e : String)
    (now : ℤ) (uuid : ℕ) (h : 3 ≤ (scrapedContentSignals f).length) :
    analystProcess agent_id false f (.error e) now uuid
      = (false, f, .error (.llm e)) := by
  simp [analystProcess, Nat.not_lt.mpr h]

theorem analystProcess_success (agent_id : String) (f : Field) (md : String)
    (now : ℤ) (uuid : ℕ) (h : 3 ≤ (scrapedContentSignals f).length) :
    analystProcess agent_id false f (.ok md) now uuid
      = (true,
        (f.emit ((((((SignalBuilder.new
          (.summary md (analystArtifacts f).length (analystContent f).length)).setOrigin
            agent_id).setConfidence 0.95).setTtl 300).build now uuid))).1,
        .ok [(f.emit ((((((SignalBuilder.new
          (.summary md (analystArtifacts f).length (analystContent f).length)).setOrigin
            agent_id).setConfidence 0.95).setTtl 300).build now uuid))).2]) := by
  simp [analystProcess, Nat.not_lt.mpr h]

/-- Claim C9, confirmed.  Before the summary is generated, fewer than 3 live
`ScrapedContent` signals make `process` return `NotReady`; once the local
`summary_generated` flag is set every activation returns `NoWork` and
leaves the field untouched; a successful activation with at least 3
`ScrapedContent` signals emits exactly one signal, a `Summary`, and sets
the flag; and across any sequence of activations started before the
summary, the analyst emits exactly one signal when some activation is ready
(at least 3 `ScrapedContent` signals and a successful LLM call) and none
otherwise. -/
theorem C9_analyst_emits_one_summary :
    ∀ (agent_id : String) (f : Field) (llm : Except String String) (now : ℤ) (uuid : ℕ)
      (steps : List AnalystStep),
      ((scrapedContentSignals f).length < 3 →
        analystProcess agent_id false f llm now uuid
          = (false, f, .error (.notReady ("Only "
              ++ toString (scrapedContentSignals f).length
              ++ " content signals, waiting for more")))) ∧
      (analystProcess agent_id true f llm now uuid = (true, f, .error .noWork)) ∧
      (∀ md, 3 ≤ (scrapedContentSignals f).length → llm = .ok md →
        ∃ (f' : Field) (hash : HashKey),
          analystProcess agent_id false f llm now uuid = (true, f', .ok [hash]) ∧
          hash.1 = .summary md (analystArtifacts f).length (analystContent f).length) ∧
      analystRun agent_id true steps = 0 ∧
      analystRun agent_id false steps = (if steps.any stepReady then 1 else 0) := by
  have hrun_true : ∀ (agent_id : String) (steps : List AnalystStep),
      analystRun agent_id true steps = 0 := by
    intro agent_id steps
    induction steps with
    | nil => rfl
    | cons step rest ih =>
      show emittedCount (analystProcess agent_id true step.field step.llm
          step.now step.uuid).2.2 + analystRun agent_id
            (analystProcess agent_id true step.field step.llm step.now step.uuid).1 rest = 0
      rw [analystProcess_generated]
      simpa [emittedCount] using ih
  have hrun_false : ∀ (agent_id : String) (steps : List AnalystStep),
      analystRun agent_id false steps = (if steps.any stepReady then 1 else 0) := by
    intro agent_id steps
    induction steps with
    | nil => rfl
    | cons step rest ih =>
      show emittedCount (analystProcess agent_id false step.field step.llm
          step.now step.uuid).2.2 + analystRun agent_id
            (analystProcess agent_id false step.field step.llm step.now step.uuid).1 rest
          = _
      by_cases hlen : (scrapedContentSignals step.field).length < 3
      · rw [analystProcess_notReady _ _ _ _ _ hlen]
        have hready : stepReady step = false := by
          simp [stepReady, Nat.not_le.mpr hlen]
        simpa [emittedCount, List.any_cons, hready] using ih
      · have hlen' : 3 ≤ (scrapedContentSignals step.field).length := Nat.not_lt.mp hlen
        cases hllm : step.llm with
        | error e =>
          rw [analystProcess_llm_error _ _ _ _ _ hlen']
          have hready : stepReady step = false := by
            simp [stepReady, hllm, Except.isOk, Except.toBool]
          simpa [emittedCount, List.any_cons, hready] using ih
        | ok md =>
          rw [analystProcess_success _ _ _ _ _ hlen']
          have hready : stepReady step = true := by
            simp [stepReady, hllm, Except.isOk, Except.toBool, hlen']
          rw [hrun_true]
          simp [emittedCount, List.any_cons, hready]
  intro agent_id f llm now uuid steps
  refine ⟨fun h => analystProcess_notReady agent_id f llm now uuid h,
    analystProcess_generated agent_id f llm now uuid, ?_,
    hrun_true agent_id steps, hrun_false agent_id steps⟩
  intro md hlen hllm
  subst hllm
  refine ⟨_, _, analystProcess_success agent_id f md now uuid hlen, ?_⟩
  rw [Field.emit_snd]
  rfl

end Robin
